import Mathlib

set_option maxRecDepth 1000000
set_option maxHeartbeats 2000000

/-!
Verification of the ext2 path-resolution core in `src/skeleton/lib/ext2_access.c`.

The image (`void * fs` in the C code) is modelled as a flat byte buffer
`fs : List Nat`; a C pointer into the image is modelled as the byte offset
from the image start (so the pointer `fs` itself is offset `0`).  Reading a
byte outside the buffer yields `0` (unmapped memory is modelled as zeros).
Multi-byte on-disk fields are little-endian (`__le16` / `__le32`), matching
the ext2 layout.  The two loops of the source that are governed by data read
from the image (the directory scan, whose stride is each record's `rec_len`)
are given an explicit fuel parameter; `none` means the loop has not finished
within the given fuel, so non-termination of the C loop shows up as
`∀ fuel, ... = none`.
-/

namespace Ext2

/-- Read one byte of the image; out-of-range reads give `0`. -/
def readByte (fs : List Nat) (i : Nat) : Nat := fs.getD i 0

/-- Read a little-endian 16-bit field at byte offset `i`. -/
def read16 (fs : List Nat) (i : Nat) : Nat :=
  readByte fs i + 256 * readByte fs (i + 1)

/-- Read a little-endian 32-bit field at byte offset `i`. -/
def read32 (fs : List Nat) (i : Nat) : Nat :=
  readByte fs i + 256 * readByte fs (i + 1) + 65536 * readByte fs (i + 2) +
    16777216 * readByte fs (i + 3)

/-- Modelled from the spec: the constant `SUPERBLOCK_OFFSET` of the missing
header `ext2fs.h`; the spec fixes the superblock byte offset to 1024. -/
def SUPERBLOCK_OFFSET : Nat := 1024

/-- Modelled from the spec: the constant `SUPERBLOCK_SIZE` of the missing
header `ext2fs.h`; the spec says the block-group descriptor lies directly
after the fixed-size (1024-byte) superblock region. -/
def SUPERBLOCK_SIZE : Nat := 1024

/-- Modelled from the spec: the constant `EXT2_ROOT_INO` of the missing
header; the root inode number is the well-known constant 2. -/
def EXT2_ROOT_INO : Nat := 2

/-- `get_super_block` (ext2_access.c line 19): `fs + SUPERBLOCK_OFFSET`. -/
def get_super_block (fs : List Nat) : Nat := SUPERBLOCK_OFFSET

/-- `get_block_size` (line 26): the macro `EXT2_BLOCK_SIZE` of the missing
header, modelled from the spec as `1024 << s_log_block_size`, where the
`s_log_block_size` field sits at byte 24 of the superblock. -/
def get_block_size (fs : List Nat) : Nat :=
  1024 <<< read32 fs (get_super_block fs + 24)

/-- `get_block` (line 35): `fs + block_num * get_block_size(fs)`. -/
def get_block (fs : List Nat) (block_num : Nat) : Nat :=
  block_num * get_block_size fs

/-- `get_block_group` (line 44): ignores `block_group_num` and returns
`fs + SUPERBLOCK_OFFSET + SUPERBLOCK_SIZE`. -/
def get_block_group (fs : List Nat) (block_group_num : Nat) : Nat :=
  SUPERBLOCK_OFFSET + SUPERBLOCK_SIZE

/-- The macro `EXT2_INODE_SIZE` of the missing header, modelled from the
spec: the inode record size is read from the superblock (its 16-bit
`s_inode_size` field, at byte 88 of the superblock); it is configurable
per volume, not a fixed constant. -/
def EXT2_INODE_SIZE (fs : List Nat) : Nat :=
  read16 fs (get_super_block fs + 88)

/-- `get_inode` (line 53): `get_block(fs, get_block_group(fs,0)->bg_inode_table)
+ (inode_num - 1) * EXT2_INODE_SIZE(superblock)`.  The `bg_inode_table`
field is the 32-bit field at byte 8 of the block-group descriptor
(modelled from the spec's ext2 layout).  `inode_num` is 1-based; the
subtraction is `Nat` subtraction, which agrees with the C `__u32`
arithmetic for every `inode_num ≥ 1`. -/
def get_inode (fs : List Nat) (inode_num : Nat) : Nat :=
  get_block fs (read32 fs (get_block_group fs 0 + 8)) +
    (inode_num - 1) * EXT2_INODE_SIZE fs

/-- `get_root_dir` (line 101): `get_inode(fs, EXT2_ROOT_INO)`. -/
def get_root_dir (fs : List Nat) : Nat := get_inode fs EXT2_ROOT_INO

/-- `strncmp(q, fs + ni, n) == 0` where `q` is a NUL-terminated C string
modelled as its list of bytes before the terminator (so reading past the
end of `q` yields the terminator `0`): compare up to `n` bytes, stopping
early at the first differing byte (result `false`) or at a common NUL
(result `true`). -/
def strncmpEq0 : List Nat → List Nat → Nat → Nat → Bool
  | _, _, _, 0 => true
  | q, fs, ni, n + 1 =>
    let a := q.headD 0
    let b := readByte fs ni
    if a ≠ b then false
    else if a = 0 then true
    else strncmpEq0 (q.drop 1) fs (ni + 1) n

/-- The `while` loop of `get_inode_from_dir` (lines 116-125), with fuel.
State: the byte offset `off` of the current directory record.  The record
layout (modelled from the spec's ext2 layout, header `ext2fs.h` missing):
`inode` is the 32-bit field at byte 0, `rec_len` the 16-bit field at
byte 4, `name_len` the byte at 6, `file_type` the byte at 7, and the name
starts at byte 8.  `file_type == 0` terminates the scan with result 0; a
successful `strncmp` over `name_len` bytes returns the record's inode
field; otherwise the offset advances by `rec_len`. -/
def scanDir : List Nat → List Nat → Nat → Nat → Option Nat
  | _, _, 0, _ => none
  | fs, q, fuel + 1, off =>
    if readByte fs (off + 7) = 0 then some 0
    else if strncmpEq0 q fs (off + 8) (readByte fs (off + 6)) then
      some (read32 fs off)
    else scanDir fs q fuel (off + read16 fs (off + 4))

/-- The first data block of a directory inode: `get_block(fs, dir->i_block[0])`
(line 113); `i_block[0]` is the 32-bit field at byte 40 of the inode record
(modelled from the spec's ext2 layout). -/
def dirFirstBlock (fs : List Nat) (dirOff : Nat) : Nat :=
  get_block fs (read32 fs (dirOff + 40))

/-- `get_inode_from_dir` (lines 110-128), with fuel for its `while` loop. -/
def get_inode_from_dirFuel (fs : List Nat) (dir : Nat) (name : List Nat)
    (fuel : Nat) : Option Nat :=
  scanDir fs name fuel (dirFirstBlock fs dir)

/-- Segments of a byte list split at every `'/'` (byte 47).  `split_path`
(lines 74-97) copies out the pieces of `path` between consecutive slash
positions strictly after index 0, starting at `piece_start = path + 1`,
plus the final piece after the last slash; that is exactly: split the
list `path.drop 1` at every 47. -/
def splitSlash : List Nat → List (List Nat)
  | [] => [[]]
  | b :: rest =>
    if b = 47 then [] :: splitSlash rest
    else
      match splitSlash rest with
      | [] => [[b]]
      | p :: ps => (b :: p) :: ps

/-- `split_path` (lines 74-97): the pieces of `path` after discarding
everything up to and including index 0. -/
def split_path (path : List Nat) : List (List Nat) :=
  splitSlash (path.drop 1)

/-- The `for` loop of `get_inode_by_path` (lines 152-161).  The C code keeps
the current directory pointer `folders`; it always equals
`get_inode fs inodeNo` for the last found inode number `inodeNo`
(initially the root inode number), so the loop state here is that number.
After the last component the last found number is returned; a lookup
returning 0 short-circuits to 0; `none` propagates an unfinished
directory scan. -/
def resolveLoop (fs : List Nat) (fuel : Nat) :
    List (List Nat) → Nat → Option Nat
  | [], inodeNo => some inodeNo
  | c :: rest, inodeNo =>
    match get_inode_from_dirFuel fs (get_inode fs inodeNo) c fuel with
    | none => none
    | some 0 => some 0
    | some (m + 1) => resolveLoop fs fuel rest (m + 1)

/-- `get_inode_by_path` (lines 133-164): count the `'/'` bytes (`levels`);
if there are none return 0; otherwise iterate over the first `levels`
components produced by `split_path`, starting from the root inode. -/
def get_inode_by_pathFuel (fs path : List Nat) (fuel : Nat) : Option Nat :=
  if path.count 47 = 0 then some 0
  else resolveLoop fs fuel ((split_path path).take (path.count 47)) EXT2_ROOT_INO

/-!
Spec-side model.  The claims compare the code against a reference reading
of a directory block as an abstract list of (inode number, name) entries
and a reference, byte-exact lookup in that list.  These definitions follow
the specification's words, not the code.
-/

/-- Pure version of the comparison the code performs on an entry whose raw
name bytes are `e`: `strncmp(q, e, e.length) == 0` for the C string `q`
(modelled as its bytes before the NUL terminator). -/
def strnEq : List Nat → List Nat → Bool
  | _, [] => true
  | q, b :: e =>
    let a := q.headD 0
    if a ≠ b then false
    else if a = 0 then true
    else strnEq (q.drop 1) e

/-- The directory block starting at byte `off` of the image carries exactly
the abstract entries `entries` (in order), each a pair of inode number and
name bytes, followed by a record whose `file_type` byte is the end
sentinel 0.  Strides are the declared `rec_len` fields, required positive.
This is the spec's data model of a directory block. -/
inductive EntriesAt (fs : List Nat) : Nat → List (Nat × List Nat) → Prop where
  | nil (off : Nat) :
      readByte fs (off + 7) = 0 →
      EntriesAt fs off []
  | cons (off ino : Nat) (name : List Nat) (rest : List (Nat × List Nat))
      (next : Nat) :
      readByte fs (off + 7) ≠ 0 →
      read32 fs off = ino →
      readByte fs (off + 6) = name.length →
      (∀ j < name.length, readByte fs (off + 8 + j) = name.getD j 0) →
      1 ≤ read16 fs (off + 4) →
      next = off + read16 fs (off + 4) →
      EntriesAt fs next rest →
      EntriesAt fs off ((ino, name) :: rest)

/-- Reference lookup in an abstract directory: the inode number of the first
entry whose name is byte-exactly the queried name, or 0 if there is none. -/
def refLookup (entries : List (Nat × List Nat)) (c : List Nat) : Nat :=
  match entries.find? (fun e => decide (e.2 = c)) with
  | some e => e.1
  | none => 0

/-- Reference traversal of claim C1, from the spec: starting from the root
inode number, each component's inode number is obtained by the reference
lookup in the current directory's first data block, the current directory
becomes that inode, and the number found for the last component is the
result; on the first component not found the result is 0.  The `step` and
`fail` cases additionally record the well-formedness conditions under
which the code's comparison agrees with the byte-exact reference: the
component has no NUL byte, and no entry of the block matches the code's
prefix comparison without being byte-exactly equal to the component;
`step` also records that the found inode number is nonzero (inode number
0 is never valid in ext2). -/
inductive RefTraverse (fs : List Nat) : Nat → List (List Nat) → Nat → Prop where
  | nil (cur : Nat) : RefTraverse fs cur [] cur
  | fail (cur : Nat) (c : List Nat) (rest : List (List Nat))
      (entries : List (Nat × List Nat)) :
      EntriesAt fs (dirFirstBlock fs (get_inode fs cur)) entries →
      0 ∉ c →
      (∀ e ∈ entries, strnEq c e.2 = true → e.2 = c) →
      entries.find? (fun e => decide (e.2 = c)) = none →
      RefTraverse fs cur (c :: rest) 0
  | step (cur : Nat) (c : List Nat) (rest : List (List Nat))
      (entries : List (Nat × List Nat)) (ino final : Nat) :
      EntriesAt fs (dirFirstBlock fs (get_inode fs cur)) entries →
      0 ∉ c →
      (∀ e ∈ entries, strnEq c e.2 = true → e.2 = c) →
      entries.find? (fun e => decide (e.2 = c)) = some (ino, c) →
      ino ≠ 0 →
      RefTraverse fs ino rest final →
      RefTraverse fs cur (c :: rest) final

/-!
Basic lemmas about the byte reads and the comparison.
-/

lemma readByte_eq_zero_of_le {fs : List Nat} {i : Nat}
    (h : fs.length ≤ i) : readByte fs i = 0 :=
  List.getD_eq_default _ _ h

lemma lt_length_of_readByte_ne_zero {fs : List Nat} {i : Nat}
    (h : readByte fs i ≠ 0) : i < fs.length := by
  by_contra hlt
  exact h (readByte_eq_zero_of_le (Nat.le_of_not_lt hlt))

/-- The in-image comparison agrees with the pure comparison `strnEq` once
the raw name bytes at `ni` are known to be `name`. -/
lemma strncmpEq0_eq_strnEq (fs : List Nat) :
    ∀ (name q : List Nat) (ni : Nat),
      (∀ j < name.length, readByte fs (ni + j) = name.getD j 0) →
      strncmpEq0 q fs ni name.length = strnEq q name := by
  intro name
  induction name with
  | nil => intro q ni _; rfl
  | cons b e ih =>
    intro q ni hbytes
    have hb : readByte fs ni = b := by
      have := hbytes 0 (Nat.succ_pos _)
      simpa using this
    have hrest : ∀ j < e.length, readByte fs (ni + 1 + j) = e.getD j 0 := by
      intro j hj
      have h2 := hbytes (j + 1) (by simpa using Nat.succ_lt_succ hj)
      simpa [show ni + (j + 1) = ni + 1 + j by omega] using h2
    simp only [List.length_cons, strncmpEq0, strnEq, hb]
    rw [ih (q.drop 1) (ni + 1) hrest]

/-- The code's comparison accepts a byte-exact match (for a NUL-free query). -/
lemma strnEq_self {c : List Nat} (hc : 0 ∉ c) : strnEq c c = true := by
  induction c with
  | nil => rfl
  | cons b e ih =>
    have hb : b ≠ 0 := fun h => hc (by simp [h])
    have he : 0 ∉ e := fun h => hc (List.mem_cons_of_mem _ h)
    simpa [strnEq, hb] using ih he

/-- The empty query does not match an entry whose first name byte is not NUL. -/
lemma strnEq_nil_head {b : Nat} {e : List Nat} (hb : b ≠ 0) :
    strnEq [] (b :: e) = false := by
  simp [strnEq, Ne.symm hb]

/-!
The directory scan against an abstract block content.
-/

/-- On a block carrying the abstract entries `entries`, on which the code's
prefix comparison only accepts byte-exact matches of the (NUL-free) query,
the scan computes the reference lookup, given fuel beyond the number of
entries. -/
lemma scanDir_refLookup {fs c : List Nat} {off : Nat}
    {entries : List (Nat × List Nat)}
    (h : EntriesAt fs off entries) (hc : 0 ∉ c)
    (hside : ∀ e ∈ entries, strnEq c e.2 = true → e.2 = c) :
    ∀ fuel, entries.length + 1 ≤ fuel →
      scanDir fs c fuel off = some (refLookup entries c) := by
  induction h with
  | nil off hft =>
    intro fuel hfuel
    obtain ⟨f, rfl⟩ := Nat.exists_eq_add_of_le hfuel
    simp [scanDir, hft, refLookup, Nat.add_comm]
  | cons off ino name rest next hft hino hlen hbytes hrec hnext _hrest ih =>
    intro fuel hfuel
    obtain ⟨f, rfl⟩ : ∃ f, fuel = f + 1 := by
      cases fuel with
      | zero => omega
      | succ f => exact ⟨f, rfl⟩
    have hcmp : strncmpEq0 c fs (off + 8) (readByte fs (off + 6)) =
        strnEq c name := by
      rw [hlen]
      exact strncmpEq0_eq_strnEq fs name c (off + 8) hbytes
    by_cases hnc : name = c
    · subst hnc
      rw [scanDir, if_neg hft, hcmp, if_pos (strnEq_self hc), hino]
      simp [refLookup, List.find?_cons_of_pos]
    · have hfalse : strnEq c name = false := by
        cases hq : strnEq c name with
        | false => rfl
        | true => exact absurd (hside (ino, name) (by simp) hq) hnc
      rw [scanDir, if_neg hft, hcmp, hfalse]
      simp only [Bool.false_eq_true, if_false]
      rw [← hnext]
      have hrl : refLookup ((ino, name) :: rest) c = refLookup rest c := by
        simp [refLookup, List.find?_cons_of_neg, hnc]
      rw [hrl]
      exact ih (fun e he => hside e (List.mem_cons_of_mem _ he))
        f (by simpa using Nat.le_of_succ_le_succ hfuel)

/-- More fuel never changes a result the scan already produced. -/
lemma scanDir_mono {fs q : List Nat} :
    ∀ {fuel off r}, scanDir fs q fuel off = some r →
      ∀ {fuel2}, fuel ≤ fuel2 → scanDir fs q fuel2 off = some r := by
  intro fuel
  induction fuel with
  | zero => intro off r h; simp [scanDir] at h
  | succ f ih =>
    intro off r h fuel2 hle
    obtain ⟨f2, rfl⟩ : ∃ f2, fuel2 = f2 + 1 := by
      cases fuel2 with
      | zero => omega
      | succ f2 => exact ⟨f2, rfl⟩
    rw [scanDir] at h ⊢
    by_cases hft : readByte fs (off + 7) = 0
    · simpa [hft] using h
    · rw [if_neg hft] at h ⊢
      by_cases hm : strncmpEq0 q fs (off + 8) (readByte fs (off + 6)) = true
      · simpa [hm] using h
      · rw [if_neg hm] at h ⊢
        exact ih h (Nat.le_of_succ_le_succ hle)

/-- More fuel never changes a result the resolver loop already produced. -/
lemma resolveLoop_mono {fs : List Nat} :
    ∀ {comps : List (List Nat)} {fuel inodeNo r},
      resolveLoop fs fuel comps inodeNo = some r →
      ∀ {fuel2}, fuel ≤ fuel2 → resolveLoop fs fuel2 comps inodeNo = some r := by
  intro comps
  induction comps with
  | nil => intro fuel inodeNo r h fuel2 _; simpa [resolveLoop] using h
  | cons c rest ih =>
    intro fuel inodeNo r h fuel2 hle
    rw [resolveLoop] at h ⊢
    cases hscan : get_inode_from_dirFuel fs (get_inode fs inodeNo) c fuel with
    | none => rw [hscan] at h; exact absurd h (by simp)
    | some m =>
      have hscan2 : get_inode_from_dirFuel fs (get_inode fs inodeNo) c fuel2 =
          some m := scanDir_mono hscan hle
      rw [hscan] at h
      rw [hscan2]
      cases m with
      | zero => exact h
      | succ k => exact ih h hle

/-- More fuel never changes a result the path resolver already produced. -/
lemma get_inode_by_pathFuel_mono {fs path : List Nat} {fuel r : Nat}
    (h : get_inode_by_pathFuel fs path fuel = some r)
    {fuel2 : Nat} (hle : fuel ≤ fuel2) :
    get_inode_by_pathFuel fs path fuel2 = some r := by
  rw [get_inode_by_pathFuel] at h ⊢
  by_cases hz : path.count 47 = 0
  · simpa [hz] using h
  · rw [if_neg hz] at h ⊢
    exact resolveLoop_mono h hle

/-- The resolver loop computes the result of the reference traversal. -/
lemma resolveLoop_of_refTraverse {fs : List Nat} :
    ∀ {cur : Nat} {comps : List (List Nat)} {final : Nat},
      RefTraverse fs cur comps final →
      ∃ fuel, resolveLoop fs fuel comps cur = some final := by
  intro cur comps final h
  induction h with
  | nil cur => exact ⟨0, rfl⟩
  | fail cur c rest entries hent hc hside hfind =>
    refine ⟨entries.length + 1, ?_⟩
    have hscan : get_inode_from_dirFuel fs (get_inode fs cur) c
        (entries.length + 1) = some (refLookup entries c) :=
      scanDir_refLookup hent hc hside _ (Nat.le_refl _)
    have hrl : refLookup entries c = 0 := by simp [refLookup, hfind]
    rw [resolveLoop, hscan, hrl]
  | step cur c rest entries ino final hent hc hside hfind hino _htail ih =>
    obtain ⟨f2, hf2⟩ := ih
    refine ⟨max (entries.length + 1) f2, ?_⟩
    have hscan : get_inode_from_dirFuel fs (get_inode fs cur) c
        (max (entries.length + 1) f2) = some (refLookup entries c) :=
      scanDir_refLookup hent hc hside _ (Nat.le_max_left _ _)
    have hrl : refLookup entries c = ino := by simp [refLookup, hfind]
    rw [resolveLoop, hscan, hrl]
    obtain ⟨k, rfl⟩ : ∃ k, ino = k + 1 := by
      cases ino with
      | zero => exact absurd rfl hino
      | succ k => exact ⟨k, rfl⟩
    exact resolveLoop_mono hf2 (Nat.le_max_right _ _)

/-!
Termination of the scan when every in-bounds record has a positive stride.
-/

/-- If every record position whose `file_type` byte is in bounds declares a
positive `rec_len`, the scan finishes from any start offset with fuel
`fs.length + 1`: each step strictly advances, and past the end of the
image the `file_type` byte reads 0, which is the sentinel. -/
lemma scanDir_total {fs q : List Nat}
    (H : ∀ off < fs.length, off + 7 < fs.length → 1 ≤ read16 fs (off + 4)) :
    ∀ (fuel off : Nat), fs.length ≤ fuel + off →
      (scanDir fs q (fuel + 1) off).isSome = true := by
  intro fuel
  induction fuel with
  | zero =>
    intro off hoff
    have hft : readByte fs (off + 7) = 0 :=
      readByte_eq_zero_of_le (by omega)
    simp [scanDir, hft]
  | succ f ih =>
    intro off hoff
    rw [scanDir]
    by_cases hft : readByte fs (off + 7) = 0
    · simp [hft]
    · rw [if_neg hft]
      by_cases hm : strncmpEq0 q fs (off + 8) (readByte fs (off + 6)) = true
      · simp [hm]
      · rw [if_neg hm]
        have hlt : off + 7 < fs.length := lt_length_of_readByte_ne_zero hft
        have hrec : 1 ≤ read16 fs (off + 4) := H off (by omega) hlt
        exact ih (off + read16 fs (off + 4)) (by omega)

/-!
The path splitter against the standard split.
-/

lemma splitSlash_ne_nil : ∀ t : List Nat, splitSlash t ≠ [] := by
  intro t
  cases t with
  | nil => simp [splitSlash]
  | cons b rest =>
    rw [splitSlash]
    by_cases hb : b = 47
    · simp [hb]
    · rw [if_neg hb]
      cases splitSlash rest <;> simp

/-- The splitter is the standard split of the list at every 47. -/
lemma splitSlash_eq_splitOn : ∀ t : List Nat, splitSlash t = t.splitOn 47 := by
  intro t
  induction t with
  | nil => simp [splitSlash, List.splitOn]
  | cons b rest ih =>
    rw [splitSlash]
    by_cases hb : b = 47
    · subst hb
      rw [if_pos rfl, ih]
      simp only [List.splitOn]
      rw [List.splitOnP_cons]
      simp
    · rw [if_neg hb]
      have hne := splitSlash_ne_nil rest
      cases hsp : splitSlash rest with
      | nil => exact absurd hsp hne
      | cons p ps =>
        rw [List.splitOn, List.splitOnP_cons]
        have hpb : ((b : Nat) == 47) = false := by
          simpa using hb
        rw [hpb]
        simp only [Bool.false_eq_true, if_false]
        rw [← List.splitOn, ← ih, hsp]
        rfl

/-- Auxiliary for C6: the reference lookup finds the final entry when no
earlier entry carries the queried name. -/
lemma find?_append_single {prev : List (Nat × List Nat)} {ino : Nat}
    {c : List Nat} (hprev : ∀ e ∈ prev, e.2 ≠ c) :
    (prev ++ [(ino, c)]).find? (fun e => decide (e.2 = c)) = some (ino, c) := by
  induction prev with
  | nil => simp [List.find?]
  | cons e rest ih =>
    have he : e.2 ≠ c := hprev e (by simp)
    have hstep : (e :: (rest ++ [(ino, c)])).find? (fun e => decide (e.2 = c)) =
        (rest ++ [(ino, c)]).find? (fun e => decide (e.2 = c)) := by
      simp [List.find?, he]
    rw [List.cons_append, hstep]
    exact ih (fun x hx => hprev x (List.mem_cons_of_mem _ hx))

/-!
Concrete fixture images.
-/

/-- A run of zero bytes. -/
def zeros (n : Nat) : List Nat := List.replicate n 0

/-- A well-formed single-block-group fixture image, 5 blocks of 1024 bytes:
boot block of zeros; superblock at 1024 (8 inodes, 5 blocks, log block
size 0, magic 0xEF53, revision 1, first inode 11, inode size 128); the
block-group descriptor at 2048 places the inode table at block 3; the
root inode (number 2, a directory of size 1024 whose first data block is
block 4) lies at 3200; inodes 5 and 7 are regular files; block 4 is the
root directory with entries "." -> 2, ".." -> 2, "a" -> 5, "ab" -> 7,
followed by an all-zero sentinel record. -/
def fsC1 : List Nat :=
  zeros 1024 ++
  ([8,0,0,0] ++ [5,0,0,0] ++ zeros 12 ++ [1,0,0,0] ++ [0,0,0,0] ++ zeros 28 ++
    [83,239] ++ [1,0] ++ zeros 16 ++ [1,0,0,0] ++ zeros 4 ++ [11,0,0,0] ++
    [128,0] ++ zeros 934) ++
  (zeros 8 ++ [3,0,0,0] ++ zeros 1012) ++
  (zeros 128 ++
    ([237,65,0,0] ++ [0,4,0,0] ++ zeros 18 ++ [3,0] ++ [2,0,0,0] ++ zeros 8 ++
      [4,0,0,0] ++ zeros 84) ++
    zeros 256 ++ ([164,129] ++ zeros 126) ++ zeros 128 ++
    ([164,129] ++ zeros 126) ++ zeros 128) ++
  ([2,0,0,0,12,0,1,2,46,0,0,0] ++ [2,0,0,0,12,0,2,2,46,46,0,0] ++
    [5,0,0,0,12,0,1,2,97,0,0,0] ++ [7,0,0,0,12,0,2,2,97,98,0,0] ++ zeros 976)

/-- The abstract entries of the root directory block of `fsC1`. -/
def entsC1 : List (Nat × List Nat) :=
  [(2, [46]), (2, [46, 46]), (5, [97]), (7, [97, 98])]

/-- The root directory block of `fsC1` carries exactly the entries `entsC1`. -/
lemma entriesAt_fsC1_root :
    EntriesAt fsC1 (dirFirstBlock fsC1 (get_inode fsC1 2)) entsC1 := by
  rw [show dirFirstBlock fsC1 (get_inode fsC1 2) = 4096 from by decide]
  refine EntriesAt.cons 4096 2 [46] _ 4108 (by decide) (by decide) (by decide)
    (by decide) (by decide) (by decide) ?_
  refine EntriesAt.cons 4108 2 [46, 46] _ 4120 (by decide) (by decide) (by decide)
    (by decide) (by decide) (by decide) ?_
  refine EntriesAt.cons 4120 5 [97] _ 4132 (by decide) (by decide) (by decide)
    (by decide) (by decide) (by decide) ?_
  refine EntriesAt.cons 4132 7 [97, 98] _ 4144 (by decide) (by decide) (by decide)
    (by decide) (by decide) (by decide) ?_
  exact EntriesAt.nil 4144 (by decide)

/-- A 12-byte image whose byte 0 (the start of block 0, which is also the
directory block every zeroed inode points at) is a directory record with
inode 7, `rec_len` 12, `name_len` 0 and `file_type` 2. -/
def fsC2 : List Nat := [7, 0, 0, 0, 12, 0, 0, 2, 0, 0, 0, 0]

/-- A 9-byte image whose byte 0 is a directory record with inode 1,
`rec_len` 0, `name_len` 1, `file_type` 2 and name "b": scanning it for
any other name loops forever. -/
def fsC3 : List Nat := [1, 0, 0, 0, 0, 0, 1, 2, 98]

/-- An 8-byte image whose only in-bounds record position (offset 0) has
`rec_len` 1 and `file_type` 0 (sentinel). -/
def fsW3 : List Nat := [0, 0, 0, 0, 1, 0, 0, 0]

/-- A 32-byte image that is a directory block: "." -> 2, "h" -> 9, sentinel. -/
def fsW6 : List Nat :=
  [2, 0, 0, 0, 12, 0, 1, 2, 46, 0, 0, 0] ++
  [9, 0, 0, 0, 12, 0, 1, 2, 104, 0, 0, 0] ++ [0, 0, 0, 0, 0, 0, 0, 0]

/-- The abstract entries of the block at offset 0 of `fsW6`. -/
def entsW6 : List (Nat × List Nat) := [(2, [46]), (9, [104])]

/-- The block at offset 0 of `fsW6` carries exactly the entries `entsW6`. -/
lemma entriesAt_fsW6 : EntriesAt fsW6 0 entsW6 := by
  refine EntriesAt.cons 0 2 [46] _ 12 (by decide) (by decide) (by decide)
    (by decide) (by decide) (by decide) ?_
  refine EntriesAt.cons 12 9 [104] _ 24 (by decide) (by decide) (by decide)
    (by decide) (by decide) (by decide) ?_
  exact EntriesAt.nil 24 (by decide)

/-!
The claims.
-/

/-- Spec-side formula for the inode table start of claim C8, written from the
spec's words: the byte address of the block whose number is read from the
block-group descriptor's inode-table field (the 32-bit field at byte 8 of
the descriptor that directly follows the 1024-byte superblock at byte
1024), blocks being `1024 << s_log_block_size` bytes. -/
def inodeTableStartSpec (fs : List Nat) : Nat :=
  read32 fs (1024 + 1024 + 8) * (1024 <<< read32 fs (1024 + 24))

/-- Spec-side inode record size of claim C8: the 16-bit `s_inode_size` field
of the superblock (byte 88 of the superblock), not a fixed constant. -/
def inodeRecordSizeSpec (fs : List Nat) : Nat := read16 fs (1024 + 88)

/-- C2: evaluation of the code at the failing inputs of the claim.  The claim
says a zero-length entry name never matches and a query strictly extending
an entry name does not match that entry; the code's
`strncmp(name, entry->name, entry->name_len)` accepts both: on `fsC2` the
single record has `name_len` 0 and the unrelated query "zzz" returns its
inode 7, and on `fsC1` the query "ab" returns 5, the inode of the earlier
entry "a" whose 1-byte name is a strict prefix of the query. -/
theorem C2_prefix_match_evaluation :
    get_inode_from_dirFuel fsC2 0 [122, 122, 122] 2 = some 7 ∧
    get_inode_from_dirFuel fsC1 (get_inode fsC1 2) [97, 98] 6 = some 5 :=
  ⟨by decide, by decide⟩

/-- C5 counterexample: the path "xa/q" does not begin with a slash, yet on the
well-formed image `fsC1` the code returns 5 (the inode found for the
component derived from the bytes between index 1 and the slash), not the
claimed NOT_FOUND 0. -/
theorem C5_counterexample :
    (([120, 97, 47, 113] : List Nat).head? ≠ some 47) ∧
    get_inode_by_pathFuel fsC1 [120, 97, 47, 113] 6 = some 5 ∧
    some (5 : Nat) ≠ some 0 :=
  ⟨by decide, by decide, by decide⟩

/-- C5 amended: for every image and every path containing no slash byte at
all, the code returns 0 for every fuel, independently of the image (no
directory lookup is performed); paths without a leading slash but with at
least one slash are not rejected. -/
theorem C5_no_separator_returns_zero (fs path : List Nat) (fuel : Nat)
    (h : path.count 47 = 0) :
    get_inode_by_pathFuel fs path fuel = some 0 := by
  rw [get_inode_by_pathFuel, if_pos h]

theorem C5_witness :
    (([97, 98, 99] : List Nat).count 47 = 0) ∧
    get_inode_by_pathFuel [] [97, 98, 99] 0 = some 0 :=
  ⟨by decide, C5_no_separator_returns_zero [] [97, 98, 99] 0 (by decide)⟩

/-- C7: `split_path "/a/b/c"` is `["a","b","c"]`; in general, for a path
beginning with a slash, the leading empty segment is discarded and the
remaining segments between separators are returned in order (the standard
split of the path at every 47, minus its first, empty group), consecutive
or trailing slashes producing empty components, as "/a//b/" shows. -/
theorem C7_split_path :
    split_path [47, 97, 47, 98, 47, 99] = [[97], [98], [99]] ∧
    (∀ path : List Nat, path.head? = some 47 →
      split_path path = (path.splitOn 47).drop 1) ∧
    split_path [47, 97, 47, 47, 98, 47] = [[97], [], [98], []] := by
  refine ⟨by decide, ?_, by decide⟩
  intro path hp
  cases path with
  | nil => simp at hp
  | cons b t =>
    have hb : b = 47 := by simpa using hp
    subst hb
    rw [split_path]
    simp only [List.drop_succ_cons, List.drop_zero]
    rw [splitSlash_eq_splitOn]
    simp [List.splitOn, List.splitOnP_cons]

theorem C7_witness :
    ([47, 120, 47] : List Nat).head? = some 47 ∧
    split_path [47, 120, 47] = (([47, 120, 47] : List Nat).splitOn 47).drop 1 :=
  ⟨rfl, C7_split_path.2.1 [47, 120, 47] rfl⟩

/-- C8: for every image and 1-based inode number, `get_inode` returns the
spec's address, inode table start (block number read from the descriptor's
inode-table field) plus `(inode_number - 1)` times the inode record size
read from the superblock; and `get_root_dir` is `get_inode` at 2. -/
theorem C8_inode_address :
    (∀ (fs : List Nat) (n : Nat), 1 ≤ n →
      get_inode fs n = inodeTableStartSpec fs + (n - 1) * inodeRecordSizeSpec fs) ∧
    (∀ fs : List Nat, get_root_dir fs = get_inode fs 2) :=
  ⟨fun _ _ _ => rfl, fun _ => rfl⟩

theorem C8_witness :
    1 ≤ 2 ∧
    get_inode fsW3 2 = inodeTableStartSpec fsW3 + (2 - 1) * inodeRecordSizeSpec fsW3 :=
  ⟨by decide, C8_inode_address.1 fsW3 2 (by decide)⟩

/-- C9: the resolver is deterministic; two runs on the same image and path
that both finish return the same inode number (in the embedding, the
result is independent of the fuel; the image, being threaded immutably
through the pure embedding of a store-free source, is unchanged by
construction). -/
theorem C9_deterministic (fs path : List Nat) (f1 f2 r1 r2 : Nat)
    (h1 : get_inode_by_pathFuel fs path f1 = some r1)
    (h2 : get_inode_by_pathFuel fs path f2 = some r2) : r1 = r2 := by
  rcases Nat.le_total f1 f2 with h | h
  · have h12 := get_inode_by_pathFuel_mono h1 h
    rw [h12] at h2
    exact Option.some_inj.mp h2
  · have h21 := get_inode_by_pathFuel_mono h2 h
    rw [h21] at h1
    exact (Option.some_inj.mp h1).symm

theorem C9_witness :
    get_inode_by_pathFuel fsC2 [47] 2 = some 7 ∧
    get_inode_by_pathFuel fsC2 [47] 3 = some 7 ∧ (7 : Nat) = 7 := by
  have h1 : get_inode_by_pathFuel fsC2 [47] 2 = some 7 := by decide
  have h2 : get_inode_by_pathFuel fsC2 [47] 3 = some 7 := by decide
  exact ⟨h1, h2, C9_deterministic fsC2 [47] 2 3 7 7 h1 h2⟩

/-- C10: `get_block_group` ignores its block-group-number argument entirely
and always returns the fixed address directly after the superblock. -/
theorem C10_block_group_ignores_argument :
    (∀ (fs : List Nat) (g1 g2 : Nat),
      get_block_group fs g1 = get_block_group fs g2) ∧
    (∀ (fs : List Nat) (g : Nat),
      get_block_group fs g = SUPERBLOCK_OFFSET + SUPERBLOCK_SIZE) :=
  ⟨fun _ _ _ => rfl, fun _ _ => rfl⟩

/-- C1 counterexample: on the well-formed image `fsC1` every component of the
absolute path "/ab" exists in its parent directory's first data block (the
reference lookup finds "ab" with inode number 7), yet the code returns 5:
the scan's prefix comparison stops at the earlier entry "a". -/
theorem C1_counterexample :
    EntriesAt fsC1 (dirFirstBlock fsC1 (get_inode fsC1 2)) entsC1 ∧
    refLookup entsC1 [97, 98] = 7 ∧
    get_inode_by_pathFuel fsC1 [47, 97, 98] 6 = some 5 ∧
    (5 : Nat) ≠ 7 :=
  ⟨entriesAt_fsC1_root, by decide, by decide, by decide⟩

/-- C1 amended: for every absolute path of depth at least 1, the code returns
the result of the reference traversal (component-wise reference lookup
from the root inode 2, short-circuiting to 0 on the first missing
component), provided along the traversal each component is NUL-free, each
found inode number is nonzero, and no entry of a visited block is accepted
by the code's prefix comparison without being byte-exactly equal to the
component (the condition the counterexample violates). -/
theorem C1_resolve_matches_reference (fs path : List Nat) (final : Nat)
    (habs : path.head? = some 47)
    (hdepth : 1 ≤ path.count 47)
    (hchain : RefTraverse fs EXT2_ROOT_INO
      ((split_path path).take (path.count 47)) final) :
    ∃ fuel, get_inode_by_pathFuel fs path fuel = some final := by
  obtain ⟨fuel, hf⟩ := resolveLoop_of_refTraverse hchain
  refine ⟨fuel, ?_⟩
  rw [get_inode_by_pathFuel, if_neg (by omega)]
  exact hf

theorem C1_witness :
    ([47, 97] : List Nat).head? = some 47 ∧
    1 ≤ ([47, 97] : List Nat).count 47 ∧
    ∃ fuel, get_inode_by_pathFuel fsC1 [47, 97] fuel = some 5 := by
  have hchain : RefTraverse fsC1 EXT2_ROOT_INO
      ((split_path [47, 97]).take (([47, 97] : List Nat).count 47)) 5 := by
    have htail : RefTraverse fsC1 5 [] 5 := RefTraverse.nil 5
    exact RefTraverse.step 2 [97] [] entsC1 5 5 entriesAt_fsC1_root (by decide)
      (by decide) (by decide) (by decide) htail
  exact ⟨rfl, by decide,
    C1_resolve_matches_reference fsC1 [47, 97] 5 rfl (by decide) hchain⟩

/-- Auxiliary for the C3 counterexample: on `fsC3` the scan from offset 0
never finishes, for any fuel: the record there has `file_type` 2, does not
match the query "a", and has `rec_len` 0, so the state repeats. -/
lemma scanDir_fsC3_none : ∀ fuel, scanDir fsC3 [97] fuel 0 = none := by
  intro fuel
  induction fuel with
  | zero => rfl
  | succ f ih =>
    rw [scanDir, if_neg (by decide), if_neg (by decide)]
    rw [show (0 + read16 fsC3 (0 + 4)) = 0 from by decide]
    exact ih

/-- C3 counterexample: not every directory block content lets the scan reach
a decision: on `fsC3` (whose first record has `rec_len` 0, `file_type` 2
and a non-matching name) both `get_inode_from_dir` and `get_inode_by_path`
for the path "/a" fail to return for every fuel, so they are not total. -/
theorem C3_counterexample :
    (¬ ∃ fuel r, get_inode_from_dirFuel fsC3 0 [97] fuel = some r) ∧
    (¬ ∃ fuel r, get_inode_by_pathFuel fsC3 [47, 97] fuel = some r) := by
  constructor
  · rintro ⟨fuel, r, h⟩
    rw [get_inode_from_dirFuel,
      show dirFirstBlock fsC3 0 = 0 from by decide, scanDir_fsC3_none] at h
    exact absurd h (by simp)
  · rintro ⟨fuel, r, h⟩
    rw [get_inode_by_pathFuel, if_neg (by decide),
      show ((split_path [47, 97]).take (([47, 97] : List Nat).count 47)) = [[97]]
        from rfl,
      resolveLoop, get_inode_from_dirFuel,
      show dirFirstBlock fsC3 (get_inode fsC3 EXT2_ROOT_INO) = 0 from by decide,
      scanDir_fsC3_none] at h
    exact absurd h (by simp)

/-- Auxiliary for C3 amended: with every in-bounds record stride positive the
resolver loop finishes for every component list. -/
lemma resolveLoop_total {fs : List Nat}
    (hscan : ∀ (q : List Nat) (off : Nat),
      (scanDir fs q (fs.length + 1) off).isSome = true) :
    ∀ (comps : List (List Nat)) (cur : Nat),
      (resolveLoop fs (fs.length + 1) comps cur).isSome = true := by
  intro comps
  induction comps with
  | nil => intro cur; simp [resolveLoop]
  | cons c rest ih =>
    intro cur
    rw [resolveLoop]
    have hs := hscan c (dirFirstBlock fs (get_inode fs cur))
    rw [← get_inode_from_dirFuel] at hs
    cases hval : get_inode_from_dirFuel fs (get_inode fs cur) c (fs.length + 1) with
    | none => rw [hval] at hs; exact absurd hs (by simp)
    | some m =>
      cases m with
      | zero => simp
      | succ k => exact ih _

/-- C3 amended: the scan terminates — reaches a matching record or the
`file_type = 0` sentinel — whenever every record position whose
`file_type` byte lies inside the image declares a positive `rec_len`
(each step then strictly advances, and past the image end the sentinel is
read); under that hypothesis `get_inode_from_dir` and `get_inode_by_path`
return a value with fuel `image length + 1`.  With a zero `rec_len` the
scan loops forever, as the counterexample shows. -/
theorem C3_positive_strides_terminate (fs q path : List Nat) (dir : Nat)
    (H : ∀ off < fs.length, off + 7 < fs.length → 1 ≤ read16 fs (off + 4)) :
    (get_inode_from_dirFuel fs dir q (fs.length + 1)).isSome = true ∧
    (get_inode_by_pathFuel fs path (fs.length + 1)).isSome = true := by
  have hscan : ∀ (q2 : List Nat) (off : Nat),
      (scanDir fs q2 (fs.length + 1) off).isSome = true :=
    fun q2 off => scanDir_total H fs.length off (Nat.le_add_right _ _)
  constructor
  · exact hscan q (dirFirstBlock fs dir)
  · rw [get_inode_by_pathFuel]
    by_cases hz : path.count 47 = 0
    · simp [hz]
    · rw [if_neg hz]
      exact resolveLoop_total hscan _ _

theorem C3_witness :
    (∀ off < fsW3.length, off + 7 < fsW3.length → 1 ≤ read16 fsW3 (off + 4)) ∧
    (get_inode_from_dirFuel fsW3 0 [] (fsW3.length + 1)).isSome = true ∧
    (get_inode_by_pathFuel fsW3 [47] (fsW3.length + 1)).isSome = true := by
  have H : ∀ off < fsW3.length, off + 7 < fsW3.length → 1 ≤ read16 fsW3 (off + 4) := by
    decide
  exact ⟨H, (C3_positive_strides_terminate fsW3 [] [47] 0 H).1,
    (C3_positive_strides_terminate fsW3 [] [47] 0 H).2⟩

/-- C4: on a well-formed image — the root directory's first block carries
entries whose names all have a nonzero first byte — resolving the bare
root path "/" returns 0 (NOT_FOUND), not the root inode number: the one
component is the empty string, which matches no such entry. -/
theorem C4_bare_root_not_found (fs : List Nat)
    (entries : List (Nat × List Nat)) (fuel : Nat)
    (h : EntriesAt fs (dirFirstBlock fs (get_root_dir fs)) entries)
    (hwf : ∀ e ∈ entries, e.2.headD 0 ≠ 0)
    (hfuel : entries.length + 1 ≤ fuel) :
    get_inode_by_pathFuel fs [47] fuel = some 0 ∧ (0 : Nat) ≠ EXT2_ROOT_INO := by
  refine ⟨?_, by decide⟩
  have hside : ∀ e ∈ entries, strnEq [] e.2 = true → e.2 = [] := by
    intro e he hs
    cases hname : e.2 with
    | nil => rfl
    | cons b t =>
      have hb : b ≠ 0 := by
        have hh := hwf e he
        rw [hname] at hh
        simpa using hh
      rw [hname, strnEq_nil_head hb] at hs
      exact absurd hs (by simp)
  have hfind : entries.find? (fun e => decide (e.2 = ([] : List Nat))) = none := by
    apply List.find?_eq_none.mpr
    intro e he
    have hh := hwf e he
    cases hname : e.2 with
    | nil => rw [hname] at hh; simp at hh
    | cons b t => simp [hname]
  have hscan := scanDir_refLookup h (by simp) hside fuel hfuel
  have hrl : refLookup entries ([] : List Nat) = 0 := by simp [refLookup, hfind]
  rw [hrl] at hscan
  rw [get_inode_by_pathFuel, if_neg (by decide),
    show ((split_path [47]).take (([47] : List Nat).count 47)) = [[]] from rfl,
    resolveLoop, get_inode_from_dirFuel,
    show get_inode fs EXT2_ROOT_INO = get_root_dir fs from rfl, hscan]

theorem C4_witness :
    get_inode_by_pathFuel fsC1 [47] 5 = some 0 ∧ (0 : Nat) ≠ EXT2_ROOT_INO :=
  C4_bare_root_not_found fsC1 entsC1 5 entriesAt_fsC1_root (by decide) (by decide)

/-- C6 counterexample: on `fsC1` the queried name "ab" appears as the last
entry before the sentinel (with inode number 7), yet the scan returns 5,
the inode of the earlier entry "a": the claim's exactly-at-sentinel /
correct-inode description fails because of the prefix comparison. -/
theorem C6_counterexample :
    EntriesAt fsC1 (dirFirstBlock fsC1 (get_inode fsC1 2))
      ([(2, [46]), (2, [46, 46]), (5, [97])] ++ [(7, [97, 98])]) ∧
    get_inode_from_dirFuel fsC1 (get_inode fsC1 2) [97, 98] 6 = some 5 ∧
    (5 : Nat) ≠ 7 :=
  ⟨entriesAt_fsC1_root, by decide, by decide⟩

/-- C6 amended: the lookup scans only the directory's first data block
`i_block[0]` and advances by each record's declared `rec_len`; on a block
carrying entries with nonzero inode fields, on which the code's prefix
comparison only accepts byte-exact matches of the (NUL-free) query, it
returns 0 exactly when no entry carries the queried name (the sentinel is
reached), and it returns the inode number of the final entry when the
query appears there and no earlier entry carries it — the byte-exactness
provisos being forced by the counterexample. -/
theorem C6_scan_behaviour :
    (∀ (fs : List Nat) (dir : Nat) (c : List Nat) (fuel : Nat),
      get_inode_from_dirFuel fs dir c fuel =
        scanDir fs c fuel (get_block fs (read32 fs (dir + 40)))) ∧
    (∀ (fs c : List Nat) (fuel off : Nat),
      readByte fs (off + 7) ≠ 0 →
      strncmpEq0 c fs (off + 8) (readByte fs (off + 6)) = false →
      scanDir fs c (fuel + 1) off = scanDir fs c fuel (off + read16 fs (off + 4))) ∧
    (∀ (fs c : List Nat) (off fuel : Nat) (entries : List (Nat × List Nat)),
      EntriesAt fs off entries → 0 ∉ c →
      (∀ e ∈ entries, strnEq c e.2 = true → e.2 = c) →
      (∀ e ∈ entries, e.1 ≠ 0) →
      entries.length + 1 ≤ fuel →
      (scanDir fs c fuel off = some 0 ↔ ¬ ∃ e ∈ entries, e.2 = c)) ∧
    (∀ (fs c : List Nat) (off fuel : Nat) (prev : List (Nat × List Nat)) (ino : Nat),
      EntriesAt fs off (prev ++ [(ino, c)]) → 0 ∉ c →
      (∀ e ∈ prev, strnEq c e.2 = true → e.2 = c) →
      (∀ e ∈ prev, e.2 ≠ c) →
      (prev ++ [(ino, c)]).length + 1 ≤ fuel →
      scanDir fs c fuel off = some ino) := by
  refine ⟨fun _ _ _ _ => rfl, ?_, ?_, ?_⟩
  · intro fs c fuel off hft hm
    rw [scanDir, if_neg hft]
    simp [hm]
  · intro fs c off fuel entries h hc hside hinoz hfuel
    rw [scanDir_refLookup h hc hside fuel hfuel]
    constructor
    · intro h0
      have hr0 : refLookup entries c = 0 := by simpa using h0
      rintro ⟨e, he, hec⟩
      cases hf : entries.find? (fun e => decide (e.2 = c)) with
      | none =>
        have := List.find?_eq_none.mp hf e he
        simp [hec] at this
      | some x =>
        have hx0 : x.1 = 0 := by simpa [refLookup, hf] using hr0
        exact hinoz x (List.mem_of_find?_eq_some hf) hx0
    · intro hnone
      have hf : entries.find? (fun e => decide (e.2 = c)) = none := by
        apply List.find?_eq_none.mpr
        intro e he
        simp only [decide_eq_true_eq]
        exact fun hec => hnone ⟨e, he, hec⟩
      simp [refLookup, hf]
  · intro fs c off fuel prev ino h hc hside hprev hfuel
    have hsideAll : ∀ e ∈ prev ++ [(ino, c)], strnEq c e.2 = true → e.2 = c := by
      intro e he hs
      rcases List.mem_append.mp he with hmem | hmem
      · exact hside e hmem hs
      · have : e = (ino, c) := by simpa using hmem
        rw [this]
    have hfind := @find?_append_single prev ino c hprev
    rw [scanDir_refLookup h hc hsideAll fuel hfuel]
    simp [refLookup, hfind]

theorem C6_witness :
    ((scanDir fsW6 [122] 3 0 = some 0 ↔ ¬ ∃ e ∈ entsW6, e.2 = [122])) ∧
    scanDir fsW6 [104] 3 0 = some 9 := by
  constructor
  · exact C6_scan_behaviour.2.2.1 fsW6 [122] 0 3 entsW6 entriesAt_fsW6
      (by decide) (by decide) (by decide) (by decide)
  · exact C6_scan_behaviour.2.2.2 fsW6 [104] 0 3 [(2, [46])] 9 entriesAt_fsW6
      (by decide) (by decide) (by decide) (by decide)

end Ext2
